import Mathlib

/-!
# Verification of `scripts/llm.py`

A shallow embedding of the batch text-classification script.  Strings are
modelled as `List Char`; the Python standard-library operations the script
relies on (`str.split`, `str.strip`, `json.loads`, `dict` lookup,
`csv.DictReader` rows) are translated to executable Lean functions below.
The remote HTTP service is modelled as an oracle: a list of `HttpResp`
values consumed one per request; an exhausted oracle models the case in
which the script is still waiting (it stands in for nontermination of the
unbounded retry loop).
-/

namespace Llm

/-- Characters of a string literal, the working representation of Python
strings in this development. -/
def toL (s : String) : List Char := s.data

/-- JSON / Python whitespace relevant to `str.strip` and `json.loads`.
(Python's `str.strip` also strips some rarer unicode whitespace; the
claims only involve ASCII whitespace.) -/
def isWS (c : Char) : Bool := c == ' ' || c == '\t' || c == '\n' || c == '\r'

/-- Drop matching characters from the end of a list. -/
def dropEndWhile (p : Char → Bool) (l : List Char) : List Char :=
  (l.reverse.dropWhile p).reverse

/-- Python `str.strip()`: remove leading and trailing whitespace. -/
def pyStrip (s : List Char) : List Char :=
  dropEndWhile isWS (s.dropWhile isWS)

/-- Index of the first occurrence of `sep` as a contiguous substring of `s`
(the scan underlying Python's `str.split` / the `in` operator). -/
def findSub (sep : List Char) : List Char → Option Nat
  | [] => if sep = [] then some 0 else none
  | c :: rest =>
    if sep.isPrefixOf (c :: rest) then some 0
    else (findSub sep rest).map (· + 1)

/-- Python's `sep in s` substring test. -/
def containsSub (sep s : List Char) : Bool := (findSub sep s).isSome

/-- Fuel-indexed worker for `pysplit` (fuel `s.length + 1` always suffices;
see `pysplitF_fuel`). -/
def pysplitF : Nat → List Char → List Char → List (List Char)
  | 0, _, s => [s]
  | fuel + 1, sep, s =>
    match findSub sep s with
    | none => [s]
    | some i => s.take i :: pysplitF fuel sep (s.drop (i + sep.length))

/-- Python `s.split(sep)` for a nonempty separator: non-overlapping
left-to-right splitting. -/
def pysplit (sep s : List Char) : List (List Char) :=
  pysplitF (s.length + 1) sep s

/-- The `"```json"` marker from `process_text`. -/
def fj : List Char := toL "```json"

/-- The `"```"` fence marker from `process_text`. -/
def f3 : List Char := toL "```"

/-- Lines 59–64 of `llm.py`: strip markdown code fences from the model
reply.  `if "```json" in t: t = t.split("```json")[1].split("```")[0].strip()`
`elif "```" in t: t = t.split("```")[1].split("```")[0].strip()`. -/
def clean_response (s : List Char) : List Char :=
  if containsSub fj s then
    pyStrip (((pysplit f3 ((pysplit fj s).getD 1 [])).headD []))
  else if containsSub f3 s then
    pyStrip (((pysplit f3 ((pysplit f3 s).getD 1 [])).headD []))
  else s

/-- JSON values, as produced by `json.loads`.  Numbers are modelled as
integers: the script's replies carry no fractional numbers and no claim
depends on them. -/
inductive Json where
  | jnull : Json
  | jbool : Bool → Json
  | jnum : Int → Json
  | jstr : List Char → Json
  | jarr : List Json → Json
  | jobj : List (List Char × Json) → Json

/-- Body of a JSON string literal, after the opening quote.  Returns the
decoded characters and the input remaining after the closing quote.
`\uXXXX` escapes are outside the modelled fragment. -/
def parseStrBody : List Char → Option (List Char × List Char)
  | [] => none
  | '"' :: rest => some ([], rest)
  | '\\' :: e :: rest =>
    match (match e with
           | '"' => some '"'
           | '\\' => some '\\'
           | '/' => some '/'
           | 'n' => some '\n'
           | 't' => some '\t'
           | 'r' => some '\r'
           | 'b' => some (Char.ofNat 8)
           | 'f' => some (Char.ofNat 12)
           | _ => none) with
    | none => none
    | some c =>
      match parseStrBody rest with
      | none => none
      | some (cs, rem) => some (c :: cs, rem)
  | '\\' :: [] => none
  | c :: rest =>
    match parseStrBody rest with
    | none => none
    | some (cs, rem) => some (c :: cs, rem)

/-- A nonempty run of decimal digits and its value. -/
def parseDigs (s : List Char) : Option (Nat × List Char) :=
  let ds := s.takeWhile Char.isDigit
  if ds.isEmpty then none
  else some (ds.foldl (fun a c => a * 10 + (c.toNat - 48)) 0,
             s.dropWhile Char.isDigit)

/-- An integer JSON number (optional minus sign, digits). -/
def parseNum : List Char → Option (Int × List Char)
  | '-' :: rest =>
    match parseDigs rest with
    | none => none
    | some (n, r) => some (-(n : Int), r)
  | s =>
    match parseDigs s with
    | none => none
    | some (n, r) => some ((n : Int), r)

mutual

/-- A JSON value, preceded by optional whitespace.  Fuel-indexed; the fuel
in `loads` always suffices. -/
def parseVal : Nat → List Char → Option (Json × List Char)
  | 0, _ => none
  | fuel + 1, s =>
    match List.dropWhile isWS s with
    | [] => none
    | c :: rest =>
      if c == '"' then
        match parseStrBody rest with
        | none => none
        | some (cs, rem) => some (.jstr cs, rem)
      else if c == '[' then
        match List.dropWhile isWS rest with
        | ']' :: r2 => some (.jarr [], r2)
        | _ =>
          match parseElems fuel rest with
          | none => none
          | some (vs, rem) => some (.jarr vs, rem)
      else if c == '{' then
        match List.dropWhile isWS rest with
        | '}' :: r2 => some (.jobj [], r2)
        | _ =>
          match parseMembers fuel rest with
          | none => none
          | some (fs, rem) => some (.jobj fs, rem)
      else if c == 't' then
        if (toL "rue").isPrefixOf rest then some (.jbool true, rest.drop 3)
        else none
      else if c == 'f' then
        if (toL "alse").isPrefixOf rest then some (.jbool false, rest.drop 4)
        else none
      else if c == 'n' then
        if (toL "ull").isPrefixOf rest then some (.jnull, rest.drop 3)
        else none
      else if c == '-' || c.isDigit then
        match parseNum (c :: rest) with
        | none => none
        | some (n, rem) => some (.jnum n, rem)
      else none

/-- One or more comma-separated array elements, then `]`. -/
def parseElems : Nat → List Char → Option (List Json × List Char)
  | 0, _ => none
  | fuel + 1, s =>
    match parseVal fuel s with
    | none => none
    | some (v, r) =>
      match List.dropWhile isWS r with
      | [] => none
      | c :: r2 =>
        if c == ',' then
          match parseElems fuel r2 with
          | none => none
          | some (vs, r3) => some (v :: vs, r3)
        else if c == ']' then some ([v], r2)
        else none

/-- One or more `"key": value` members, then `}`. -/
def parseMembers : Nat → List Char → Option (List (List Char × Json) × List Char)
  | 0, _ => none
  | fuel + 1, s =>
    match List.dropWhile isWS s with
    | '"' :: r0 =>
      match parseStrBody r0 with
      | none => none
      | some (k, r1) =>
        match List.dropWhile isWS r1 with
        | ':' :: r2 =>
          match parseVal fuel r2 with
          | none => none
          | some (v, r3) =>
            match List.dropWhile isWS r3 with
            | [] => none
            | c :: r4 =>
              if c == ',' then
                match parseMembers fuel r4 with
                | none => none
                | some (fs, r5) => some ((k, v) :: fs, r5)
              else if c == '}' then some ([(k, v)], r4)
              else none
        | _ => none
    | _ => none

end

/-- Python `json.loads`: parse a complete JSON document, tolerating
surrounding whitespace and nothing else.  Stripping first is extensionally
the same as Python's skip-leading-whitespace / expect-only-trailing-
whitespace behaviour. -/
def loads (s : List Char) : Option Json :=
  match parseVal (2 * (pyStrip s).length + 8) (pyStrip s) with
  | none => none
  | some (v, rest) => if rest.dropWhile isWS = [] then some v else none

/-- An HTTP response from the remote service: status code and raw body
text.  `requests.Response.json()` is modelled as `loads body`. -/
structure HttpResp where
  status : Nat
  body : List Char

/-- Python exceptions the script can raise or catch. -/
inductive PyErr where
  | httpError : Nat → List Char → PyErr     -- requests.exceptions.HTTPError
  | jsonDecodeError : PyErr                 -- json.JSONDecodeError / ValueError
  | keyError : List Char → PyErr            -- KeyError on dict lookup
  | typeError : PyErr                       -- TypeError on bad subscripts
  | indexError : PyErr                      -- IndexError on list index
deriving DecidableEq

/-- Python `str(e)`, coarsely: the claims only require that an error row's
`transformed_text` is the raised error's message, not the exact wording of
library messages. -/
def errMsg : PyErr → List Char
  | .httpError st body => toL "Status " ++ Nat.toDigits 10 st ++ toL ": " ++ body
  | .jsonDecodeError => toL "Expecting value"
  | .keyError k => '\'' :: (k ++ ['\''])
  | .typeError => toL "TypeError"
  | .indexError => toL "list index out of range"

/-- Observable side effects of one `process_text` call. -/
inductive Event where
  | requested : Event                -- HTTP POST sent (same request each time)
  | printedRetry : Nat → Event       -- the rate-limit retry notice, with counter
  | slept : Nat → Event              -- time.sleep(seconds)
deriving DecidableEq

/-- Python dict lookup `j[k]` on a parsed JSON value. -/
def getItem (j : Json) (k : List Char) : Except PyErr Json :=
  match j with
  | .jobj fs =>
    match fs.lookup k with
    | some v => .ok v
    | none => .error (.keyError k)
  | _ => .error .typeError

/-- Python list index `j[i]` on a parsed JSON value. -/
def getIdx (j : Json) (i : Nat) : Except PyErr Json :=
  match j with
  | .jarr xs =>
    match xs.get? i with
    | some v => .ok v
    | none => .error .indexError
  | _ => .error .typeError

/-- Require a JSON string (the reply text must be a `str` for the fence
tests `"```json" in response_text` to run). -/
def asStr (j : Json) : Except PyErr (List Char) :=
  match j with
  | .jstr s => .ok s
  | _ => .error .typeError

/-- Line 57 of `llm.py`: `response_text = data['content'][0]['text']` after
`data = response.json()`. -/
def extractReplyText (body : List Char) : Except PyErr (List Char) :=
  match loads body with
  | none => .error .jsonDecodeError
  | some data =>
    match getItem data (toL "content") with
    | .error e => .error e
    | .ok content =>
      match getIdx content 0 with
      | .error e => .error e
      | .ok first =>
        match getItem first (toL "text") with
        | .error e => .error e
        | .ok textJ => asStr textJ

/-- Lines 54–66 of `llm.py`: parse a successful (non-raised) response body
into the returned JSON value. -/
def parseReply (body : List Char) : Except PyErr Json :=
  match extractReplyText body with
  | .error e => .error e
  | .ok txt =>
    match loads (clean_response txt) with
    | none => .error .jsonDecodeError
    | some v => .ok v

/-- Outcome of one non-rate-limited response: `raise_for_status` raises
`HTTPError` for statuses 400–599 (the behaviour of `requests`), otherwise
the body is parsed. -/
def respond (r : HttpResp) : Except PyErr Json :=
  if 400 ≤ r.status ∧ r.status < 600 then .error (.httpError r.status r.body)
  else parseReply r.body

/-- The retry loop of `process_text` (lines 27–75), run against a response
oracle.  Each iteration consumes one response; a 429 prints the retry
notice, sleeps 15 seconds and loops; anything else produces an outcome.
The pair holds the emitted events and `some outcome`, or `none` when the
oracle is exhausted while still retrying (the loop is still running). -/
def process_text_aux : Nat → List HttpResp → List Event × Option (Except PyErr Json)
  | _, [] => ([], none)
  | retry_count, r :: rest =>
    if r.status == 429 then
      let p := process_text_aux (retry_count + 1) rest
      (Event.requested :: Event.printedRetry (retry_count + 1) :: Event.slept 15 :: p.1,
       p.2)
    else ([Event.requested], some (respond r))

/-- Function `process_text(text, api_key)` with the network abstracted to a response
oracle.  The prompt is built once from `text`; every request in the loop is
the same request, so the oracle alone determines the outcome. -/
def process_text (resps : List HttpResp) : List Event × Option (Except PyErr Json) :=
  process_text_aux 0 resps

/-- The literal `'ERROR'` sentinel. -/
def errCls : List Char := toL "ERROR"

/-- One entry of the `results` list in `process_csv`: the Python dict
`{'id': ..., 'original_text': ..., 'classification': ..., 'transformed_text': ...}`.
In the success branch the last two fields hold whatever JSON values the
reply carried; in the error branch they hold the strings `'ERROR'` and
`str(e)`. -/
structure OutputRec where
  id : List Char
  original_text : List Char
  classification : Json
  transformed_text : Json

/-- Lines 89–108 of `llm.py`: the per-row try/except.  `process_text` plus
the two field accesses run inside `try`; any exception produces the ERROR
row.  `none` propagates a still-retrying (never-returning) call. -/
def process_row (rid text : List Char) (resps : List HttpResp) : Option OutputRec :=
  match (process_text resps).2 with
  | none => none
  | some (.error e) => some ⟨rid, text, .jstr errCls, .jstr (errMsg e)⟩
  | some (.ok j) =>
    match getItem j (toL "classification") with
    | .error e => some ⟨rid, text, .jstr errCls, .jstr (errMsg e)⟩
    | .ok cv =>
      match getItem j (toL "transformed_text") with
      | .error e => some ⟨rid, text, .jstr errCls, .jstr (errMsg e)⟩
      | .ok tv => some ⟨rid, text, cv, tv⟩

/-- A row produced by `csv.DictReader`: an association list from column
names to cell values. -/
def RowDict : Type := List (List Char × List Char)

/-- Column access `row[k]`, raising `KeyError` when the column is absent. -/
def rowItem (row : RowDict) (k : List Char) : Except PyErr (List Char) :=
  match List.lookup k row with
  | some v => .ok v
  | none => .error (.keyError k)

/-- The row loop of `process_csv` (lines 85–108).  `text = row['text']` and
the `row['id']` of the progress print run outside the try/except, so a
missing column aborts the whole run.  `svc k` is the response oracle for
row `k`. -/
def runRowsAux (svc : Nat → List HttpResp) : Nat → List RowDict → Except PyErr (Option (List OutputRec))
  | _, [] => .ok (some [])
  | k, row :: rest =>
    match rowItem row (toL "text") with
    | .error e => .error e
    | .ok text =>
      match rowItem row (toL "id") with
      | .error e => .error e
      | .ok rid =>
        match process_row rid text (svc k) with
        | none => .ok none
        | some rec =>
          match runRowsAux svc (k + 1) rest with
          | .error e => .error e
          | .ok none => .ok none
          | .ok (some recs) => .ok (some (rec :: recs))

/-- All rows of the batch, in input order. -/
def runRows (rows : List RowDict) (svc : Nat → List HttpResp) : Except PyErr (Option (List OutputRec)) :=
  runRowsAux svc 0 rows

/-- The output header `['id', 'original_text', 'classification', 'transformed_text']`. -/
def headerRow : List (List Char) := [toL "id", toL "original_text", toL "classification", toL "transformed_text"]

/-- Cell text `str(value)` as the csv writer applies it to a cell.  Strings are
written as-is; the claims never inspect the textual form of non-string
cells, which is modelled coarsely. -/
def pyStr : Json → List Char
  | .jstr s => s
  | .jnum n => if n < 0 then '-' :: Nat.toDigits 10 n.natAbs else Nat.toDigits 10 n.natAbs
  | .jbool true => toL "True"
  | .jbool false => toL "False"
  | .jnull => toL "None"
  | .jarr _ => toL "<list>"
  | .jobj _ => toL "<dict>"

/-- One written output row. -/
def recRow (r : OutputRec) : List (List Char) :=
  [r.id, r.original_text, pyStr r.classification, pyStr r.transformed_text]

/-- Lines 110–116 of `llm.py`: the output table as written after the loop —
header row then one row per collected record, in order. -/
def writeTable (recs : List OutputRec) : List (List (List Char)) :=
  headerRow :: recs.map recRow

/-- Function `process_csv(input_file, output_file, api_key)`.  `input` is the result
of opening and reading the input table (`.error` when that fails); the
returned value is `.error e` when an unhandled exception aborts the run (no
output file), `.ok none` when the run never finishes (a row retries
forever), and `.ok (some tbl)` when the output file `tbl` is written. -/
def process_csv (input : Except PyErr (List RowDict)) (svc : Nat → List HttpResp) :
    Except PyErr (Option (List (List (List Char)))) :=
  match input with
  | .error e => .error e
  | .ok rows =>
    match runRows rows svc with
    | .error e => .error e
    | .ok none => .ok none
    | .ok (some recs) => .ok (some (writeTable recs))

/-- The diagnostic trace of `n` consecutive rate-limited attempts whose
first retry notice carries counter `c + 1`: each attempt posts the
request, prints the incremented retry counter and sleeps 15 seconds. -/
def retryTrace (c : Nat) : Nat → List Event
  | 0 => []
  | n + 1 =>
    Event.requested :: Event.printedRetry (c + 1) :: Event.slept 15 :: retryTrace (c + 1) n

/-! ## Spec-side definitions (for refinement comparison only) -/

/-- The extraction policy as the specification words it (claim C3): the
text between the first `"```json"` marker and the next `"```"` marker;
else the text between the first pair of `"```"` markers; else the raw
payload.  Totalised in the natural way: when no closing marker follows,
the remainder of the payload is taken.  This definition follows the spec's
words, not the code, and is compared against `clean_response`. -/
def specExtract (s : List Char) : List Char :=
  match findSub fj s with
  | some i =>
    match findSub f3 (s.drop (i + fj.length)) with
    | some j => (s.drop (i + fj.length)).take j
    | none => s.drop (i + fj.length)
  | none =>
    match findSub f3 s with
    | some i =>
      match findSub f3 (s.drop (i + f3.length)) with
      | some j => (s.drop (i + f3.length)).take j
      | none => s.drop (i + f3.length)
    | none => s

/-- Non-degeneracy of the `"```json"` branch: the first closing `"```"`
after the first `"```json"` marker does not overlap a later `"```json"`
marker (all realistic fenced replies satisfy this; it fails only for runs
of four or more backticks followed by `json`). -/
def b1ok (s : List Char) : Bool :=
  match findSub fj s with
  | none => true
  | some i =>
    match findSub f3 (s.drop (i + fj.length)), findSub fj (s.drop (i + fj.length)) with
    | some j, some i2 => decide (i2 ≤ j ∨ j + 3 ≤ i2)
    | _, _ => true

/-! ## Whitespace-stripping lemmas -/

theorem dw_idem (p : Char → Bool) (l : List Char) :
    List.dropWhile p (List.dropWhile p l) = List.dropWhile p l := by
  induction l with
  | nil => rfl
  | cons x xs ih =>
    by_cases h : p x
    · simp [List.dropWhile_cons, h, ih]
    · simp [List.dropWhile_cons, h]

theorem dw_suffix (p : Char → Bool) (l : List Char) :
    ∃ t, t ++ List.dropWhile p l = l := by
  induction l with
  | nil => exact ⟨[], rfl⟩
  | cons x xs ih =>
    by_cases h : p x
    · obtain ⟨t, ht⟩ := ih
      exact ⟨x :: t, by simp [List.dropWhile_cons, h, ht]⟩
    · exact ⟨[], by simp [List.dropWhile_cons, h]⟩

theorem dEW_pre (p : Char → Bool) (l : List Char) :
    ∃ t, dropEndWhile p l ++ t = l := by
  obtain ⟨t, ht⟩ := dw_suffix p l.reverse
  refine ⟨t.reverse, ?_⟩
  have := congrArg List.reverse ht
  simpa [dropEndWhile] using this

theorem dw_len_le (p : Char → Bool) (l : List Char) :
    (List.dropWhile p l).length ≤ l.length := by
  induction l with
  | nil => simp
  | cons x xs ih =>
    by_cases h : p x
    · simp only [List.dropWhile_cons, h, if_true]
      exact Nat.le_trans ih (Nat.le_succ _)
    · simp [List.dropWhile_cons, h]

theorem dw_eq_of_pre (p : Char → Bool) {l l' : List Char}
    (h : List.dropWhile p l = l) (hp : ∃ t, l' ++ t = l) :
    List.dropWhile p l' = l' := by
  cases l' with
  | nil => rfl
  | cons x xs =>
    obtain ⟨t, ht⟩ := hp
    have hx : p x = false := by
      by_contra hc
      have hx' : p x = true := by
        cases hpx : p x
        · exact absurd hpx hc
        · rfl
      subst ht
      simp only [List.cons_append, List.dropWhile_cons, hx', if_true] at h
      have hle := dw_len_le p (xs ++ t)
      rw [h] at hle
      simp only [List.length_cons] at hle
      omega
    simp [List.dropWhile_cons, hx]

theorem dEW_idem (p : Char → Bool) (l : List Char) :
    dropEndWhile p (dropEndWhile p l) = dropEndWhile p l := by
  simp [dropEndWhile, dw_idem]

theorem pyStrip_idem (s : List Char) : pyStrip (pyStrip s) = pyStrip s := by
  have ha : List.dropWhile isWS (List.dropWhile isWS s) = List.dropWhile isWS s :=
    dw_idem _ _
  have h1 : List.dropWhile isWS (pyStrip s) = pyStrip s :=
    dw_eq_of_pre isWS ha (dEW_pre isWS (List.dropWhile isWS s))
  show dropEndWhile isWS (List.dropWhile isWS (pyStrip s)) = pyStrip s
  rw [h1]
  exact dEW_idem isWS _

theorem loads_pyStrip (s : List Char) : loads (pyStrip s) = loads s := by
  unfold loads
  rw [pyStrip_idem]

theorem pyStrip_cons (x : Char) (t : List Char) (hx : isWS x = false) :
    ∃ ys, pyStrip (x :: t) = x :: ys := by
  have h1 : pyStrip (x :: t) = dropEndWhile isWS (x :: t) := by
    simp [pyStrip, List.dropWhile_cons, hx]
  obtain ⟨u, hu⟩ := dEW_pre isWS (x :: t)
  have hne : dropEndWhile isWS (x :: t) ≠ [] := by
    intro hc
    have : ∀ y ∈ (x :: t).reverse, isWS y := by
      have : List.dropWhile isWS (x :: t).reverse = [] := by
        have := congrArg List.reverse hc
        simpa [dropEndWhile] using this
      exact List.dropWhile_eq_nil_iff.mp this
    have := this x (by simp)
    rw [hx] at this
    exact Bool.noConfusion this
  cases hd : dropEndWhile isWS (x :: t) with
  | nil => exact absurd hd hne
  | cons y ys =>
    rw [hd] at hu
    have hy : y = x := by
      have := hu
      simp [List.cons_append] at this
      exact this.1
    exact ⟨ys, by rw [h1, hd, hy]⟩

/-! ## Substring-search and split lemmas -/

theorem ipo_iff (a : List Char) : ∀ b, a.isPrefixOf b = true ↔ ∃ t, a ++ t = b := by
  induction a with
  | nil =>
    intro b
    simp [List.isPrefixOf]
  | cons x as ih =>
    intro b
    cases b with
    | nil => simp [List.isPrefixOf]
    | cons y bs =>
      simp only [List.isPrefixOf, Bool.and_eq_true, beq_iff_eq, ih bs]
      constructor
      · rintro ⟨hxy, t, ht⟩
        exact ⟨t, by rw [List.cons_append, hxy, ht]⟩
      · rintro ⟨t, ht⟩
        rw [List.cons_append] at ht
        injection ht with h1 h2
        exact ⟨h1, t, h2⟩

theorem ipo_app (l t : List Char) : l.isPrefixOf (l ++ t) = true :=
  (ipo_iff l (l ++ t)).mpr ⟨t, rfl⟩

theorem ipo_refl (l : List Char) : l.isPrefixOf l = true :=
  (ipo_iff l l).mpr ⟨[], by simp⟩

theorem ipo_trans {a b c : List Char} (h1 : a.isPrefixOf b = true)
    (h2 : b.isPrefixOf c = true) : a.isPrefixOf c = true := by
  obtain ⟨u, hu⟩ := (ipo_iff a b).mp h1
  obtain ⟨v, hv⟩ := (ipo_iff b c).mp h2
  exact (ipo_iff a c).mpr ⟨u ++ v, by rw [← List.append_assoc, hu, hv]⟩

theorem ipo_len {a b : List Char} (h : a.isPrefixOf b = true) :
    a.length ≤ b.length := by
  obtain ⟨t, ht⟩ := (ipo_iff a b).mp h
  subst ht
  simp

theorem ipo_take {sep t : List Char} {k : Nat} (h : sep.isPrefixOf t = true)
    (hk : sep.length ≤ k) : sep.isPrefixOf (t.take k) = true := by
  obtain ⟨u, hu⟩ := (ipo_iff sep t).mp h
  subst hu
  rw [List.take_append_eq_append_take, List.take_of_length_le hk]
  exact ipo_app _ _

theorem ipo_of_take {sep t : List Char} {k : Nat}
    (h : sep.isPrefixOf (t.take k) = true) : sep.isPrefixOf t = true := by
  obtain ⟨u, hu⟩ := (ipo_iff sep (t.take k)).mp h
  refine (ipo_iff sep t).mpr ⟨u ++ t.drop k, ?_⟩
  rw [← List.append_assoc, hu, List.take_append_drop]

theorem fs_sound {sep s : List Char} {i : Nat} (h : findSub sep s = some i) :
    sep.isPrefixOf (s.drop i) = true := by
  induction s generalizing i with
  | nil =>
    simp only [findSub] at h
    split at h
    · next hsep =>
      injection h with h'
      subst hsep
      simp [← h', List.isPrefixOf]
    · exact absurd h (by simp)
  | cons x rest ih =>
    simp only [findSub] at h
    split at h
    · next hp =>
      injection h with h'
      rw [← h']
      exact hp
    · next =>
      cases hfs : findSub sep rest with
      | none => rw [hfs] at h; exact absurd h (by simp)
      | some j =>
        rw [hfs] at h
        injection h with h'
        rw [← h']
        simpa using ih hfs

theorem fs_min {sep s : List Char} {i : Nat} (h : findSub sep s = some i) :
    ∀ j, j < i → sep.isPrefixOf (s.drop j) = false := by
  induction s generalizing i with
  | nil =>
    intro j hj
    simp only [findSub] at h
    split at h
    · injection h with h'
      omega
    · exact absurd h (by simp)
  | cons x rest ih =>
    intro j hj
    simp only [findSub] at h
    split at h
    · injection h with h'
      omega
    · next hp =>
      cases hfs : findSub sep rest with
      | none => rw [hfs] at h; exact absurd h (by simp)
      | some j' =>
        rw [hfs] at h
        have h' : j' + 1 = i := by simpa using h
        cases j with
        | zero =>
          simp only [List.drop_zero]
          exact Bool.eq_false_iff.mpr hp
        | succ j0 =>
          have : j0 < j' := by omega
          simpa using ih hfs j0 this

theorem fs_complete {sep s : List Char} {i : Nat}
    (h : sep.isPrefixOf (s.drop i) = true) : ∃ j, j ≤ i ∧ findSub sep s = some j := by
  induction s generalizing i with
  | nil =>
    rw [List.drop_nil] at h
    obtain ⟨t, ht⟩ := (ipo_iff sep []).mp h
    have hsep : sep = [] := by
      cases sep with
      | nil => rfl
      | cons a as => exact absurd ht (by simp)
    exact ⟨0, Nat.zero_le i, by simp [findSub, hsep]⟩
  | cons x rest ih =>
    by_cases hp : sep.isPrefixOf (x :: rest) = true
    · exact ⟨0, Nat.zero_le i, by simp [findSub, hp]⟩
    · cases i with
      | zero =>
        rw [List.drop_zero] at h
        exact absurd h hp
      | succ i0 =>
        rw [List.drop_succ_cons] at h
        obtain ⟨j, hj, hfs⟩ := ih h
        refine ⟨j + 1, by omega, ?_⟩
        simp only [findSub]
        rw [if_neg (by simp [hp]), hfs]
        rfl

theorem fs_nil {sep : List Char} (hsep : sep ≠ []) : findSub sep [] = none := by
  simp [findSub, hsep]

theorem fs_bound {sep s : List Char} {i : Nat} (hsep : sep ≠ [])
    (h : findSub sep s = some i) : i + sep.length ≤ s.length := by
  have hps := fs_sound h
  have hlen := ipo_len hps
  rw [List.length_drop] at hlen
  by_cases hi : i ≤ s.length
  · omega
  · exfalso
    rw [List.drop_eq_nil_of_le (by omega)] at hps
    obtain ⟨t, ht⟩ := (ipo_iff sep []).mp hps
    cases sep with
    | nil => exact hsep rfl
    | cons a as => exact absurd ht (by simp)

theorem pysplitF_fuel {sep : List Char} (hsep : sep ≠ []) :
    ∀ f1 f2 s, s.length < f1 → s.length < f2 →
      pysplitF f1 sep s = pysplitF f2 sep s := by
  intro f1
  induction f1 with
  | zero => intro f2 s h1 h2; omega
  | succ n ih =>
    intro f2 s h1 h2
    cases f2 with
    | zero => omega
    | succ m =>
      cases hfs : findSub sep s with
      | none => simp only [pysplitF, hfs]
      | some i =>
        have hb := fs_bound hsep hfs
        have hone : 1 ≤ sep.length := by
          cases sep with
          | nil => exact absurd rfl hsep
          | cons a as => simp
        have hdrop : (s.drop (i + sep.length)).length < s.length := by
          rw [List.length_drop]
          omega
        simp only [pysplitF, hfs]
        exact congrArg _ (ih m _ (by omega) (by omega))

theorem pysplit_eq (sep s : List Char) (hsep : sep ≠ []) :
    pysplit sep s =
      match findSub sep s with
      | none => [s]
      | some i => s.take i :: pysplit sep (s.drop (i + sep.length)) := by
  show pysplitF (s.length + 1) sep s = _
  cases hfs : findSub sep s with
  | none => simp [pysplitF, hfs]
  | some i =>
    have hb := fs_bound hsep hfs
    have hone : 1 ≤ sep.length := by
      cases sep with
      | nil => exact absurd rfl hsep
      | cons a as => simp
    have hdrop : (s.drop (i + sep.length)).length < s.length := by
      rw [List.length_drop]
      omega
    simp only [pysplitF, hfs, pysplit]
    exact congrArg _
      (pysplitF_fuel hsep s.length ((s.drop (i + sep.length)).length + 1)
        (s.drop (i + sep.length)) (by omega) (by omega))

theorem pysplit_none {sep s : List Char} (hsep : sep ≠ [])
    (hfs : findSub sep s = none) : pysplit sep s = [s] := by
  rw [pysplit_eq sep s hsep, hfs]

theorem pysplit_some {sep s : List Char} {i : Nat} (hsep : sep ≠ [])
    (hfs : findSub sep s = some i) :
    pysplit sep s = s.take i :: pysplit sep (s.drop (i + sep.length)) := by
  rw [pysplit_eq sep s hsep, hfs]

/-! ## Fence-marker occurrence lemmas -/

theorem ipo_cancel (a b c : List Char) :
    (a ++ b).isPrefixOf (a ++ c) = b.isPrefixOf c := by
  induction a with
  | nil => rfl
  | cons x xs ih => simp [List.isPrefixOf, ih]

theorem fs_self_append {c0 : Char} {tl t : List Char} :
    findSub (c0 :: tl) ((c0 :: tl) ++ t) = some 0 := by
  show findSub (c0 :: tl) (c0 :: (tl ++ t)) = some 0
  simp only [findSub]
  rw [if_pos]
  show (c0 :: tl).isPrefixOf ((c0 :: tl) ++ t) = true
  exact ipo_app _ _

theorem fs_none_of_head {c0 : Char} {tl s : List Char} (h : ∀ x ∈ s, x ≠ c0) :
    findSub (c0 :: tl) s = none := by
  induction s with
  | nil => rfl
  | cons x rest ih =>
    have hx : (c0 == x) = false := by
      rw [beq_eq_false_iff_ne]
      exact fun he => h x (by simp) he.symm
    simp only [findSub, List.isPrefixOf, hx, Bool.false_and, if_neg]
    rw [ih (fun y hy => h y (by simp [hy]))]
    rfl

theorem fs_append_none {c0 : Char} {tl s u : List Char} (h : ∀ x ∈ s, x ≠ c0)
    (hu : findSub (c0 :: tl) u = none) : findSub (c0 :: tl) (s ++ u) = none := by
  induction s with
  | nil => simpa using hu
  | cons x rest ih =>
    have hx : (c0 == x) = false := by
      rw [beq_eq_false_iff_ne]
      exact fun he => h x (by simp) he.symm
    show findSub (c0 :: tl) (x :: (rest ++ u)) = none
    simp only [findSub, List.isPrefixOf, hx, Bool.false_and, if_neg]
    rw [ih (fun y hy => h y (by simp [hy]))]
    rfl

theorem fs_append_marker {c0 : Char} {tl s t : List Char} (h : ∀ x ∈ s, x ≠ c0) :
    findSub (c0 :: tl) (s ++ ((c0 :: tl) ++ t)) = some s.length := by
  induction s with
  | nil => simpa using fs_self_append
  | cons x rest ih =>
    have hx : (c0 == x) = false := by
      rw [beq_eq_false_iff_ne]
      exact fun he => h x (by simp) he.symm
    show findSub (c0 :: tl) (x :: (rest ++ ((c0 :: tl) ++ t))) = some (rest.length + 1)
    simp only [findSub, List.isPrefixOf, hx, Bool.false_and, if_neg]
    rw [ih (fun y hy => h y (by simp [hy]))]
    rfl

theorem notick_ne (c : List Char) (h : '`' ∉ c) : ∀ x ∈ c, x ≠ '`' := by
  intro x hx he
  exact h (he ▸ hx)

/-- With abstract fuel, the value parser rejects an input whose first
non-whitespace character is `j` (no JSON value starts with `j`). -/
theorem parseVal_j (f : Nat) (r : List Char) : parseVal f ('j' :: r) = none := by
  cases f with
  | zero => rfl
  | succ n =>
    have h1 : isWS 'j' = false := by decide
    simp [parseVal, List.dropWhile_cons, h1]

/-- A string accepted by `loads` cannot begin with `json`, hence cannot
complete a bare fence into a `"```json"` marker. -/
theorem jsonL_not_pre {c : List Char} (h2 : (loads c).isSome = true) :
    (toL "json").isPrefixOf (c ++ f3) = false := by
  cases c with
  | nil => decide
  | cons x xs =>
    have hxj : x ≠ 'j' := by
      intro hx
      subst hx
      by_cases hw : isWS 'j' = true
      · exact absurd hw (by decide)
      · have hw' : isWS 'j' = false := by simpa using hw
        obtain ⟨ys, hys⟩ := pyStrip_cons 'j' xs hw'
        rw [loads, hys, parseVal_j] at h2
        simp at h2
    have hx : ('j' == x) = false := by
      rw [beq_eq_false_iff_ne]
      exact fun he => hxj he.symm
    show (toL "json").isPrefixOf (x :: (xs ++ f3)) = false
    simp [toL, List.isPrefixOf, hx]

theorem fs_fj_bfence {c : List Char} (h1 : '`' ∉ c)
    (hj : (toL "json").isPrefixOf (c ++ f3) = false) :
    findSub fj (f3 ++ (c ++ f3)) = none := by
  have h3 : findSub fj (c ++ f3) = none := by
    show findSub ('`' :: toL "``json") (c ++ f3) = none
    exact fs_append_none (notick_ne c h1) (by decide)
  have cond1 : fj.isPrefixOf (f3 ++ (c ++ f3)) = false := by
    show (f3 ++ toL "json").isPrefixOf (f3 ++ (c ++ f3)) = false
    rw [ipo_cancel]
    exact hj
  have cond2 : fj.isPrefixOf ('`' :: '`' :: (c ++ f3)) = false := by
    cases c with
    | nil => decide
    | cons x xs =>
      have hx : x ≠ '`' := notick_ne _ h1 x (by simp)
      have hx' : ('`' == x) = false := by
        rw [beq_eq_false_iff_ne]
        exact fun he => hx he.symm
      show fj.isPrefixOf ('`' :: '`' :: x :: (xs ++ f3)) = false
      simp [fj, toL, List.isPrefixOf, hx']
  have cond3 : fj.isPrefixOf ('`' :: (c ++ f3)) = false := by
    cases c with
    | nil => decide
    | cons x xs =>
      have hx : x ≠ '`' := notick_ne _ h1 x (by simp)
      have hx' : ('`' == x) = false := by
        rw [beq_eq_false_iff_ne]
        exact fun he => hx he.symm
      show fj.isPrefixOf ('`' :: x :: (xs ++ f3)) = false
      simp [fj, toL, List.isPrefixOf, hx']
  show findSub fj ('`' :: '`' :: '`' :: (c ++ f3)) = none
  have cond1' : fj.isPrefixOf ('`' :: '`' :: '`' :: (c ++ f3)) = false := cond1
  simp only [findSub, cond1', cond2, cond3, h3]
  simp

/-! ## `clean_response` on fence-wrapped payloads -/

theorem fj_ne : fj ≠ [] := by decide

theorem f3_ne : f3 ≠ [] := by decide

theorem fs_fj_notick {c : List Char} (h : '`' ∉ c) : findSub fj c = none :=
  fs_none_of_head (notick_ne c h)

theorem fs_f3_notick {c : List Char} (h : '`' ∉ c) : findSub f3 c = none :=
  fs_none_of_head (notick_ne c h)

theorem clean_raw {c : List Char} (h1 : '`' ∉ c) : clean_response c = c := by
  unfold clean_response
  rw [if_neg, if_neg]
  · simp [containsSub, fs_f3_notick h1]
  · simp [containsSub, fs_fj_notick h1]

theorem pysplit_f3_close {c : List Char} (h1 : '`' ∉ c) :
    pysplit f3 (c ++ f3) = [c, []] := by
  have e4 : findSub f3 (c ++ f3) = some c.length := by
    have := @fs_append_marker '`' (toL "``") c [] (notick_ne c h1)
    simpa using this
  rw [pysplit_some f3_ne e4, List.take_left]
  have hd : (c ++ f3).drop (c.length + f3.length) = [] := by
    rw [show c.length + f3.length = (c ++ f3).length from (List.length_append _ _).symm,
      List.drop_length]
  rw [hd, pysplit_none f3_ne (fs_nil f3_ne)]

theorem clean_jfence {c : List Char} (h1 : '`' ∉ c) :
    clean_response (fj ++ (c ++ f3)) = pyStrip c := by
  have e1 : findSub fj (fj ++ (c ++ f3)) = some 0 := fs_self_append
  have e3 : findSub fj (c ++ f3) = none := by
    show findSub ('`' :: toL "``json") (c ++ f3) = none
    exact fs_append_none (notick_ne c h1) (by decide)
  unfold clean_response
  rw [if_pos (by simp [containsSub, e1])]
  rw [pysplit_some fj_ne e1]
  simp only [List.take_zero, Nat.zero_add, List.drop_left]
  rw [pysplit_none fj_ne e3]
  show pyStrip ((pysplit f3 (c ++ f3)).headD []) = pyStrip c
  rw [pysplit_f3_close h1]
  rfl

theorem clean_bfence {c : List Char} (h1 : '`' ∉ c)
    (hj : (toL "json").isPrefixOf (c ++ f3) = false) :
    clean_response (f3 ++ (c ++ f3)) = pyStrip c := by
  have efj : findSub fj (f3 ++ (c ++ f3)) = none := fs_fj_bfence h1 hj
  have e1 : findSub f3 (f3 ++ (c ++ f3)) = some 0 := fs_self_append
  unfold clean_response
  rw [if_neg (by simp [containsSub, efj])]
  rw [if_pos (by simp [containsSub, e1])]
  rw [pysplit_some f3_ne e1]
  simp only [List.take_zero, Nat.zero_add, List.drop_left]
  rw [pysplit_f3_close h1]
  show pyStrip ((pysplit f3 c).headD []) = pyStrip c
  rw [pysplit_none f3_ne (fs_f3_notick h1)]
  rfl

/-! ## The extraction policy against the spec's wording -/

theorem f3_len : f3.length = 3 := rfl

theorem f3_take_none {u : List Char} {j : Nat} (hj : findSub f3 u = some j) :
    findSub f3 (u.take j) = none := by
  cases hft : findSub f3 (u.take j) with
  | none => rfl
  | some p =>
    exfalso
    have hb := fs_bound f3_ne hft
    have hlen : (u.take j).length ≤ j := by
      simp [List.length_take]
    have h3 := f3_len
    have hpj : p < j := by omega
    have hs := fs_sound hft
    rw [List.drop_take] at hs
    have h2 := ipo_of_take hs
    have hmin := fs_min hj p hpj
    simp [hmin] at h2

theorem f3_take_find {u : List Char} {j i2 : Nat} (hj : findSub f3 u = some j)
    (hle : j + 3 ≤ i2) : findSub f3 (u.take i2) = some j := by
  have hocc : f3.isPrefixOf ((u.take i2).drop j) = true := by
    rw [List.drop_take]
    refine ipo_take (fs_sound hj) ?_
    have h3 := f3_len
    omega
  obtain ⟨p, hpj, hfp⟩ := fs_complete hocc
  have hpeq : p = j := by
    by_contra hne
    have hplt : p < j := by omega
    have hs := fs_sound hfp
    rw [List.drop_take] at hs
    have h2 := ipo_of_take hs
    have hmin := fs_min hj p hplt
    simp [hmin] at h2
  rw [hpeq] at hfp
  exact hfp

theorem f3_of_fj {r : List Char} (h : fj.isPrefixOf r = true) :
    f3.isPrefixOf r = true :=
  ipo_trans (by decide) h

/-- The code's fence extraction agrees with the spec's wording up to
whitespace stripping, on every payload satisfying `b1ok`. -/
theorem clean_vs_spec (s : List Char) (h : b1ok s = true) :
    clean_response s =
      if containsSub fj s || containsSub f3 s then pyStrip (specExtract s)
      else specExtract s := by
  cases hfj : findSub fj s with
  | some i =>
    have hc : containsSub fj s = true := by simp [containsSub, hfj]
    rw [if_pos (by simp [hc])]
    simp only [clean_response]
    rw [if_pos hc]
    apply congrArg pyStrip
    rw [pysplit_some fj_ne hfj]
    simp only [List.getD_cons_succ]
    cases hfj2 : findSub fj (s.drop (i + fj.length)) with
    | none =>
      rw [pysplit_none fj_ne hfj2]
      simp only [List.getD_cons_zero]
      cases hf3 : findSub f3 (s.drop (i + fj.length)) with
      | none =>
        rw [pysplit_none f3_ne hf3]
        simp only [specExtract, hfj, hf3, List.headD_cons]
      | some j =>
        rw [pysplit_some f3_ne hf3]
        simp only [specExtract, hfj, hf3, List.headD_cons]
    | some i2 =>
      rw [pysplit_some fj_ne hfj2]
      simp only [List.getD_cons_zero]
      have hocc3 : f3.isPrefixOf ((s.drop (i + fj.length)).drop i2) = true :=
        f3_of_fj (fs_sound hfj2)
      obtain ⟨j, hj_le, hf3⟩ := fs_complete hocc3
      have hdic : i2 ≤ j ∨ j + 3 ≤ i2 := by
        simp only [b1ok, hfj, hf3, hfj2] at h
        exact of_decide_eq_true h
      simp only [specExtract, hfj, hf3]
      cases hdic with
      | inl hle =>
        have hji2 : j = i2 := Nat.le_antisymm hj_le hle
        subst hji2
        rw [pysplit_none f3_ne (f3_take_none hf3)]
        simp only [List.headD_cons]
      | inr hle =>
        rw [pysplit_some f3_ne (f3_take_find hf3 hle)]
        simp only [List.headD_cons]
        rw [List.take_take, Nat.min_eq_left hj_le]
  | none =>
    have hcf : containsSub fj s = false := by simp [containsSub, hfj]
    cases hf3s : findSub f3 s with
    | none =>
      have hc3 : containsSub f3 s = false := by simp [containsSub, hf3s]
      rw [if_neg (by simp [hcf, hc3])]
      simp only [clean_response]
      rw [if_neg (by simp [hcf]), if_neg (by simp [hc3])]
      simp only [specExtract, hfj, hf3s]
    | some i =>
      have hc3 : containsSub f3 s = true := by simp [containsSub, hf3s]
      rw [if_pos (by simp [hc3])]
      simp only [clean_response]
      rw [if_neg (by simp [hcf]), if_pos hc3]
      apply congrArg pyStrip
      rw [pysplit_some f3_ne hf3s]
      simp only [List.getD_cons_succ]
      cases hf3r : findSub f3 (s.drop (i + f3.length)) with
      | none =>
        rw [pysplit_none f3_ne hf3r]
        simp only [List.getD_cons_zero]
        rw [pysplit_none f3_ne hf3r]
        simp only [specExtract, hfj, hf3s, hf3r, List.headD_cons]
      | some j =>
        rw [pysplit_some f3_ne hf3r]
        simp only [List.getD_cons_zero]
        rw [pysplit_none f3_ne (f3_take_none hf3r)]
        simp only [specExtract, hfj, hf3s, hf3r, List.headD_cons]

/-! ## Retry-loop characterization -/

theorem pt_aux_all429 (rs : List HttpResp) (c : Nat) (h : ∀ r ∈ rs, r.status = 429) :
    process_text_aux c rs = (retryTrace c rs.length, none) := by
  induction rs generalizing c with
  | nil => rfl
  | cons r rest ih =>
    have hr : r.status = 429 := h r (by simp)
    have hb : (r.status == 429) = true := by simp [hr]
    simp only [process_text_aux, hb, if_pos]
    rw [ih (c + 1) (fun x hx => h x (by simp [hx]))]
    rfl

theorem pt_aux_ret (rs : List HttpResp) (c : Nat) (out : Except PyErr Json)
    (h : (process_text_aux c rs).2 = some out) :
    ∃ k, ∃ hk : k < rs.length,
      (∀ j, (hj : j < k) → (rs.get ⟨j, Nat.lt_trans hj hk⟩).status = 429) ∧
      (rs.get ⟨k, hk⟩).status ≠ 429 ∧
      out = respond (rs.get ⟨k, hk⟩) ∧
      (process_text_aux c rs).1 = retryTrace c k ++ [Event.requested] := by
  induction rs generalizing c with
  | nil => exact absurd h (by simp [process_text_aux])
  | cons r rest ih =>
    by_cases hr : r.status = 429
    · have hb : (r.status == 429) = true := by simp [hr]
      simp only [process_text_aux, hb, if_pos] at h ⊢
      obtain ⟨k, hk, hpre, hne, hout, htr⟩ := ih (c + 1) h
      refine ⟨k + 1, by simpa using Nat.succ_lt_succ hk, ?_, ?_, ?_, ?_⟩
      · intro j hj
        cases j with
        | zero => simpa using hr
        | succ j0 => simpa using hpre j0 (by omega)
      · simpa using hne
      · simpa using hout
      · simp only [retryTrace, List.cons_append]
        rw [htr]
    · have hb : (r.status == 429) = false := by simp [hr]
      simp only [process_text_aux, hb, Bool.false_eq_true, if_neg, not_false_iff] at h ⊢
      refine ⟨0, by simp, ?_, by simpa using hr, ?_, ?_⟩
      · intro j hj
        omega
      · simpa using h.symm
      · simp [retryTrace]

theorem process_row_fields {rid text : List Char} {resps : List HttpResp} {rec : OutputRec}
    (h : process_row rid text resps = some rec) :
    rec.id = rid ∧ rec.original_text = text := by
  cases hpt : (process_text resps).2 with
  | none => simp [process_row, hpt] at h
  | some out =>
    cases out with
    | error e =>
      simp only [process_row, hpt, Option.some.injEq] at h
      rw [← h]
      exact ⟨rfl, rfl⟩
    | ok j =>
      cases h1 : getItem j (toL "classification") with
      | error e =>
        simp only [process_row, hpt, h1, Option.some.injEq] at h
        rw [← h]
        exact ⟨rfl, rfl⟩
      | ok cv =>
        cases h2 : getItem j (toL "transformed_text") with
        | error e =>
          simp only [process_row, hpt, h1, h2, Option.some.injEq] at h
          rw [← h]
          exact ⟨rfl, rfl⟩
        | ok tv =>
          simp only [process_row, hpt, h1, h2, Option.some.injEq] at h
          rw [← h]
          exact ⟨rfl, rfl⟩

theorem process_row_some (rid text : List Char) {resps : List HttpResp}
    (h : (process_text resps).2 ≠ none) :
    ∃ rec, process_row rid text resps = some rec := by
  cases hpt : (process_text resps).2 with
  | none => exact absurd hpt h
  | some out =>
    cases out with
    | error e =>
      exact ⟨⟨rid, text, .jstr errCls, .jstr (errMsg e)⟩, by simp [process_row, hpt]⟩
    | ok j =>
      cases h1 : getItem j (toL "classification") with
      | error e =>
        exact ⟨⟨rid, text, .jstr errCls, .jstr (errMsg e)⟩, by simp [process_row, hpt, h1]⟩
      | ok cv =>
        cases h2 : getItem j (toL "transformed_text") with
        | error e =>
          exact ⟨⟨rid, text, .jstr errCls, .jstr (errMsg e)⟩, by simp [process_row, hpt, h1, h2]⟩
        | ok tv =>
          exact ⟨⟨rid, text, cv, tv⟩, by simp [process_row, hpt, h1, h2]⟩

/-! ## Batch-runner characterization -/

theorem rowItem_ok {row : RowDict} {k t : List Char} :
    rowItem row k = .ok t ↔ List.lookup k row = some t := by
  unfold rowItem
  cases hl : List.lookup k row with
  | none => simp
  | some v => simp

theorem runRowsAux_ok {svc : Nat → List HttpResp} {k : Nat} {rows : List RowDict}
    {recs : List OutputRec} (h : runRowsAux svc k rows = .ok (some recs)) :
    recs.length = rows.length ∧
    ∀ i (hi : i < rows.length) (hi' : i < recs.length),
      ∃ t rid, List.lookup (toL "text") (rows.get ⟨i, hi⟩) = some t ∧
        List.lookup (toL "id") (rows.get ⟨i, hi⟩) = some rid ∧
        process_row rid t (svc (k + i)) = some (recs.get ⟨i, hi'⟩) := by
  induction rows generalizing k recs with
  | nil =>
    simp only [runRowsAux, Except.ok.injEq, Option.some.injEq] at h
    subst h
    exact ⟨rfl, fun i hi _ => absurd hi (by simp)⟩
  | cons row rest ih =>
    cases h1 : rowItem row (toL "text") with
    | error e => simp [runRowsAux, h1] at h
    | ok t =>
      cases h2 : rowItem row (toL "id") with
      | error e => simp [runRowsAux, h1, h2] at h
      | ok rid =>
        cases h3 : process_row rid t (svc k) with
        | none => simp [runRowsAux, h1, h2, h3] at h
        | some rec =>
          cases h4 : runRowsAux svc (k + 1) rest with
          | error e => simp [runRowsAux, h1, h2, h3, h4] at h
          | ok o =>
            cases o with
            | none => simp [runRowsAux, h1, h2, h3, h4] at h
            | some recs' =>
              simp only [runRowsAux, h1, h2, h3, h4, Except.ok.injEq,
                Option.some.injEq] at h
              obtain ⟨hlen, hall⟩ := ih h4
              subst h
              refine ⟨by simp [hlen], ?_⟩
              intro i hi hi'
              cases i with
              | zero =>
                refine ⟨t, rid, ?_, ?_, ?_⟩
                · simpa using rowItem_ok.mp h1
                · simpa using rowItem_ok.mp h2
                · simpa using h3
              | succ i0 =>
                have hi0 : i0 < rest.length := by simpa using hi
                have hi0' : i0 < recs'.length := by simpa using hi'
                obtain ⟨t', rid', ha, hb, hc⟩ := hall i0 hi0 hi0'
                refine ⟨t', rid', by simpa using ha, by simpa using hb, ?_⟩
                have hidx : k + 1 + i0 = k + (i0 + 1) := by omega
                rw [hidx] at hc
                simpa using hc

theorem runRowsAux_total {svc : Nat → List HttpResp} {k : Nat} {rows : List RowDict}
    (h : ∀ i (hi : i < rows.length),
      (List.lookup (toL "text") (rows.get ⟨i, hi⟩)).isSome = true ∧
      (List.lookup (toL "id") (rows.get ⟨i, hi⟩)).isSome = true ∧
      (process_text (svc (k + i))).2 ≠ none) :
    ∃ recs, runRowsAux svc k rows = .ok (some recs) ∧ recs.length = rows.length := by
  induction rows generalizing k with
  | nil => exact ⟨[], rfl, rfl⟩
  | cons row rest ih =>
    obtain ⟨htS, hiS, hterm⟩ := h 0 (by simp)
    have htS' : (List.lookup (toL "text") row).isSome = true := by simpa using htS
    have hiS' : (List.lookup (toL "id") row).isSome = true := by simpa using hiS
    obtain ⟨t, ht⟩ := Option.isSome_iff_exists.mp htS'
    obtain ⟨rid, hrid⟩ := Option.isSome_iff_exists.mp hiS'
    have hterm' : (process_text (svc (k + 0))).2 ≠ none := hterm
    rw [Nat.add_zero] at hterm'
    obtain ⟨rec, hrec⟩ := process_row_some rid t hterm'
    have harg : ∀ i (hi : i < rest.length),
        (List.lookup (toL "text") (rest.get ⟨i, hi⟩)).isSome = true ∧
        (List.lookup (toL "id") (rest.get ⟨i, hi⟩)).isSome = true ∧
        (process_text (svc (k + 1 + i))).2 ≠ none := by
      intro i hi
      obtain ⟨a, b, c⟩ := h (i + 1) (by simpa using Nat.succ_lt_succ hi)
      refine ⟨by simpa using a, by simpa using b, ?_⟩
      have hidx : k + (i + 1) = k + 1 + i := by omega
      rw [hidx] at c
      exact c
    obtain ⟨recs, hrun, hlen⟩ := ih harg
    exact ⟨rec :: recs,
      by simp [runRowsAux, rowItem_ok.mpr ht, rowItem_ok.mpr hrid, hrec, hrun],
      by simp [hlen]⟩

theorem runRowsAux_abort {svc : Nat → List HttpResp} {k : Nat}
    (rows1 : List RowDict) (row : RowDict) (rows2 : List RowDict)
    (hbad : List.lookup (toL "text") row = none ∨
      ((List.lookup (toL "text") row).isSome = true ∧ List.lookup (toL "id") row = none))
    (hgood : ∀ i (hi : i < rows1.length),
      (List.lookup (toL "text") (rows1.get ⟨i, hi⟩)).isSome = true ∧
      (List.lookup (toL "id") (rows1.get ⟨i, hi⟩)).isSome = true ∧
      (process_text (svc (k + i))).2 ≠ none) :
    ∃ e, runRowsAux svc k (rows1 ++ row :: rows2) = .error e := by
  induction rows1 generalizing k with
  | nil =>
    cases hbad with
    | inl hl =>
      refine ⟨.keyError (toL "text"), ?_⟩
      have h1 : rowItem row (toL "text") = .error (.keyError (toL "text")) := by
        unfold rowItem
        rw [hl]
      simp [runRowsAux, h1]
    | inr hr =>
      obtain ⟨htS, hid⟩ := hr
      obtain ⟨t, ht⟩ := Option.isSome_iff_exists.mp htS
      refine ⟨.keyError (toL "id"), ?_⟩
      have h1 : rowItem row (toL "text") = .ok t := rowItem_ok.mpr ht
      have h2 : rowItem row (toL "id") = .error (.keyError (toL "id")) := by
        unfold rowItem
        rw [hid]
      simp [runRowsAux, h1, h2]
  | cons r rs1 ih =>
    obtain ⟨htS, hiS, hterm⟩ := hgood 0 (by simp)
    have htS' : (List.lookup (toL "text") r).isSome = true := by simpa using htS
    have hiS' : (List.lookup (toL "id") r).isSome = true := by simpa using hiS
    obtain ⟨t, ht⟩ := Option.isSome_iff_exists.mp htS'
    obtain ⟨rid, hrid⟩ := Option.isSome_iff_exists.mp hiS'
    have hterm' : (process_text (svc (k + 0))).2 ≠ none := hterm
    rw [Nat.add_zero] at hterm'
    obtain ⟨rec, hrec⟩ := process_row_some rid t hterm'
    have harg : ∀ i (hi : i < rs1.length),
        (List.lookup (toL "text") (rs1.get ⟨i, hi⟩)).isSome = true ∧
        (List.lookup (toL "id") (rs1.get ⟨i, hi⟩)).isSome = true ∧
        (process_text (svc (k + 1 + i))).2 ≠ none := by
      intro i hi
      obtain ⟨a, b, c⟩ := hgood (i + 1) (by simpa using Nat.succ_lt_succ hi)
      refine ⟨by simpa using a, by simpa using b, ?_⟩
      have hidx : k + (i + 1) = k + 1 + i := by omega
      rw [hidx] at c
      exact c
    obtain ⟨e, he⟩ := ih harg
    refine ⟨e, ?_⟩
    show runRowsAux svc k ((r :: rs1) ++ row :: rows2) = .error e
    simp [runRowsAux, rowItem_ok.mpr ht, rowItem_ok.mpr hrid, hrec, he]

/-! ## Claims -/

/-- Claim C1. For every input table whose batch run completes, the output
collection has exactly one record per input row, in the same order, and the
`i`-th record's `id` and `original_text` equal the `i`-th row's `id` and
`text` cells — regardless of whether classification of each row succeeded
or failed (the response oracle `svc` is arbitrary). -/
theorem C1_batch_preserves_rows (rows : List RowDict) (svc : Nat → List HttpResp)
    (recs : List OutputRec) (h : runRows rows svc = .ok (some recs)) :
    recs.length = rows.length ∧
    ∀ i (hi : i < rows.length) (hi' : i < recs.length),
      List.lookup (toL "id") (rows.get ⟨i, hi⟩) = some ((recs.get ⟨i, hi'⟩).id) ∧
      List.lookup (toL "text") (rows.get ⟨i, hi⟩) =
        some ((recs.get ⟨i, hi'⟩).original_text) := by
  have h' : runRowsAux svc 0 rows = .ok (some recs) := h
  obtain ⟨hlen, hall⟩ := runRowsAux_ok h'
  refine ⟨hlen, ?_⟩
  intro i hi hi'
  obtain ⟨t, rid, ht, hid, hpr⟩ := hall i hi hi'
  obtain ⟨hid', htext'⟩ := process_row_fields hpr
  exact ⟨by rw [hid, hid'], by rw [ht, htext']⟩

/-- Witness for C1: a one-row table whose classification fails with an
HTTP 500 still yields a one-record output with matching id and text. -/
theorem C1_witness :
    runRows [[(toL "id", toL "1"), (toL "text", toL "t")]] (fun _ => [⟨500, toL "b"⟩]) =
      .ok (some [⟨toL "1", toL "t", .jstr errCls,
        .jstr (errMsg (.httpError 500 (toL "b")))⟩]) ∧
    ([⟨toL "1", toL "t", .jstr errCls,
        .jstr (errMsg (.httpError 500 (toL "b")))⟩] : List OutputRec).length =
      [[(toL "id", toL "1"), (toL "text", toL "t")]].length :=
  ⟨rfl,
    (C1_batch_preserves_rows
      [[(toL "id", toL "1"), (toL "text", toL "t")]]
      (fun _ => [⟨500, toL "b"⟩])
      [⟨toL "1", toL "t", .jstr errCls, .jstr (errMsg (.httpError 500 (toL "b")))⟩]
      rfl).1⟩

/-- Claim C2. When the classifier call for a row produces an error (any
`PyErr`, in particular a raised HTTP error), the row's output record has
`classification = "ERROR"` and `transformed_text = str(e)`; and a batch
whose rows all have the needed columns and terminating calls always
completes with one record per row — one row's failure never aborts the
batch and no row is dropped. -/
theorem C2_error_row_sentinel :
    (∀ (rid text : List Char) (resps : List HttpResp) (e : PyErr),
      (process_text resps).2 = some (.error e) →
      process_row rid text resps =
        some ⟨rid, text, .jstr errCls, .jstr (errMsg e)⟩) ∧
    (∀ (rows : List RowDict) (svc : Nat → List HttpResp),
      (∀ i (hi : i < rows.length),
        (List.lookup (toL "text") (rows.get ⟨i, hi⟩)).isSome = true ∧
        (List.lookup (toL "id") (rows.get ⟨i, hi⟩)).isSome = true ∧
        (process_text (svc i)).2 ≠ none) →
      ∃ recs, runRows rows svc = .ok (some recs) ∧ recs.length = rows.length) := by
  constructor
  · intro rid text resps e h
    simp [process_row, h]
  · intro rows svc h
    have h' : ∀ i (hi : i < rows.length),
        (List.lookup (toL "text") (rows.get ⟨i, hi⟩)).isSome = true ∧
        (List.lookup (toL "id") (rows.get ⟨i, hi⟩)).isSome = true ∧
        (process_text (svc (0 + i))).2 ≠ none := by
      intro i hi
      obtain ⟨a, b, c⟩ := h i hi
      exact ⟨a, b, by rw [Nat.zero_add]; exact c⟩
    exact runRowsAux_total h'

/-- Witness for C2: an HTTP 500 row becomes an ERROR record, and the
one-row batch still completes. -/
theorem C2_witness :
    (process_text [⟨500, toL "b"⟩]).2 = some (.error (.httpError 500 (toL "b"))) ∧
    process_row (toL "1") (toL "t") [⟨500, toL "b"⟩] =
      some ⟨toL "1", toL "t", .jstr errCls, .jstr (errMsg (.httpError 500 (toL "b")))⟩ ∧
    ∃ recs, runRows [[(toL "id", toL "1"), (toL "text", toL "t")]]
        (fun _ => [⟨500, toL "b"⟩]) = .ok (some recs) ∧
      recs.length = [[(toL "id", toL "1"), (toL "text", toL "t")]].length :=
  ⟨rfl,
    C2_error_row_sentinel.1 (toL "1") (toL "t") [⟨500, toL "b"⟩]
      (.httpError 500 (toL "b")) rfl,
    C2_error_row_sentinel.2 [[(toL "id", toL "1"), (toL "text", toL "t")]]
      (fun _ => [⟨500, toL "b"⟩])
      (fun i hi => by
        have hi0 : i = 0 := by simpa using hi
        subst hi0
        refine ⟨?_, ?_, ?_⟩
        · show (List.lookup (toL "text")
            [(toL "id", toL "1"), (toL "text", toL "t")]).isSome = true
          decide
        · show (List.lookup (toL "id")
            [(toL "id", toL "1"), (toL "text", toL "t")]).isSome = true
          decide
        intro hc
        rw [show (process_text [(⟨500, toL "b"⟩ : HttpResp)]).2 =
          some (.error (.httpError 500 (toL "b"))) from rfl] at hc
        cases hc)⟩

/-- Claim C3, counterexample. The claim says the extracted substring *is*
the text between the first `"```json"` marker and the next `"```"` marker;
the code additionally strips surrounding whitespace, so on the payload
`"```json 1 ```"` the code extracts `"1"` while the text between the
markers is `" 1 "`. -/
theorem C3_counterexample :
    clean_response (toL "```json 1 ```") = toL "1" ∧
    specExtract (toL "```json 1 ```") = toL " 1 " ∧
    clean_response (toL "```json 1 ```") ≠ specExtract (toL "```json 1 ```") :=
  ⟨rfl, rfl, by decide⟩

/-- Claim C3, amended. On every payload whose first closing fence does not
overlap a further `"```json"` marker (`b1ok`), the code's extraction is
exactly the spec's between-the-markers text (taking to the end of the
payload when no closing marker exists) *stripped of surrounding
whitespace* in the two fence branches, and the raw payload unchanged
otherwise. -/
theorem C3_extraction_amended (s : List Char) (h : b1ok s = true) :
    clean_response s =
      if containsSub fj s || containsSub f3 s then pyStrip (specExtract s)
      else specExtract s :=
  clean_vs_spec s h

/-- Witness for C3 (amended) at the payload of the counterexample. -/
theorem C3_witness :
    b1ok (toL "```json 1 ```") = true ∧
    clean_response (toL "```json 1 ```") =
      (if containsSub fj (toL "```json 1 ```") || containsSub f3 (toL "```json 1 ```") then
        pyStrip (specExtract (toL "```json 1 ```"))
      else specExtract (toL "```json 1 ```")) :=
  ⟨by decide, C3_extraction_amended (toL "```json 1 ```") (by decide)⟩

/-- Claim C4, counterexample. A valid JSON payload may contain a `"```"`
fence inside a string literal; then the raw form is itself mangled by the
extraction and the three wrapping forms do not parse alike: for the JSON
string `"a```1```b"`, the raw form parses (after extraction) to the number
`1` while the `"```json"`-wrapped form fails to parse. -/
theorem C4_counterexample :
    loads (toL "\"a```1```b\"") = some (.jstr (toL "a```1```b")) ∧
    loads (clean_response (toL "\"a```1```b\"")) = some (.jnum 1) ∧
    loads (clean_response (fj ++ (toL "\"a```1```b\"" ++ f3))) = none ∧
    loads (clean_response (toL "\"a```1```b\"")) ≠
      loads (clean_response (fj ++ (toL "\"a```1```b\"" ++ f3))) := by
  refine ⟨rfl, rfl, rfl, ?_⟩
  rw [show loads (clean_response (toL "\"a```1```b\"")) = some (.jnum 1) from rfl,
    show loads (clean_response (fj ++ (toL "\"a```1```b\"" ++ f3))) = none from rfl]
  exact Option.some_ne_none _

/-- Claim C4, amended. For every inner content string that contains no
backtick and is valid JSON, the raw form, the `"```json"`-fenced form and
the bare `"```"`-fenced form all parse to the identical structure after
extraction. -/
theorem C4_fence_equivalence_amended (c : List Char) (h1 : '`' ∉ c)
    (h2 : (loads c).isSome = true) :
    loads (clean_response c) = loads c ∧
    loads (clean_response (fj ++ (c ++ f3))) = loads c ∧
    loads (clean_response (f3 ++ (c ++ f3))) = loads c := by
  refine ⟨?_, ?_, ?_⟩
  · rw [clean_raw h1]
  · rw [clean_jfence h1, loads_pyStrip]
  · rw [clean_bfence h1 (jsonL_not_pre h2), loads_pyStrip]

/-- Witness for C4 (amended) at the content `" 1 "` (note the surrounding
whitespace, which the fenced forms strip and the parser tolerates). -/
theorem C4_witness :
    ('`' ∉ toL " 1 ") ∧ (loads (toL " 1 ")).isSome = true ∧
    (loads (clean_response (toL " 1 ")) = loads (toL " 1 ") ∧
     loads (clean_response (fj ++ (toL " 1 " ++ f3))) = loads (toL " 1 ") ∧
     loads (clean_response (f3 ++ (toL " 1 " ++ f3))) = loads (toL " 1 ")) :=
  ⟨by decide, by decide, C4_fence_equivalence_amended (toL " 1 ") (by decide) (by decide)⟩

/-- Claim C5, counterexample. `process_text` performs no field check: on a
successful reply whose payload is the JSON array `[1, 2]`, the classify
operation returns `ok [1, 2]` — a result lacking both `classification` and
`transformed_text` — rather than failing. -/
theorem C5_counterexample :
    (process_text [⟨200, toL "\x7b\"content\": [\x7b\"text\": \"[1, 2]\"\x7d]\x7d"⟩]).2 =
      some (.ok (.jarr [.jnum 1, .jnum 2])) ∧
    getItem (.jarr [.jnum 1, .jnum 2]) (toL "classification") = .error .typeError ∧
    getItem (.jarr [.jnum 1, .jnum 2]) (toL "transformed_text") = .error .typeError :=
  ⟨rfl, rfl, rfl⟩

/-- Claim C5, amended. On a successful reply, classify fails when the
extracted payload is not valid JSON and otherwise returns the parsed value
*without checking the two required fields*; a missing field instead
surfaces at field access in the batch runner, whose handler records the
ERROR row — so no success row lacks either field. -/
theorem C5_missing_field_amended :
    (∀ (txt body : List Char),
      extractReplyText body = .ok txt →
      loads (clean_response txt) = none →
      parseReply body = .error .jsonDecodeError) ∧
    (∀ (txt body : List Char) (v : Json),
      extractReplyText body = .ok txt →
      loads (clean_response txt) = some v →
      parseReply body = .ok v) ∧
    (∀ (rid text : List Char) (resps : List HttpResp) (j : Json) (e : PyErr),
      (process_text resps).2 = some (.ok j) →
      getItem j (toL "classification") = .error e →
      process_row rid text resps =
        some ⟨rid, text, .jstr errCls, .jstr (errMsg e)⟩) ∧
    (∀ (rid text : List Char) (resps : List HttpResp) (j cv : Json) (e : PyErr),
      (process_text resps).2 = some (.ok j) →
      getItem j (toL "classification") = .ok cv →
      getItem j (toL "transformed_text") = .error e →
      process_row rid text resps =
        some ⟨rid, text, .jstr errCls, .jstr (errMsg e)⟩) ∧
    (∀ (rid text : List Char) (resps : List HttpResp) (rec : OutputRec),
      process_row rid text resps = some rec →
      rec.classification ≠ .jstr errCls →
      ∃ j cv tv, (process_text resps).2 = some (.ok j) ∧
        getItem j (toL "classification") = .ok cv ∧
        getItem j (toL "transformed_text") = .ok tv ∧
        rec.classification = cv ∧ rec.transformed_text = tv) := by
  refine ⟨?_, ?_, ?_, ?_, ?_⟩
  · intro txt body h1 h2
    simp [parseReply, h1, h2]
  · intro txt body v h1 h2
    simp [parseReply, h1, h2]
  · intro rid text resps j e h1 h2
    simp [process_row, h1, h2]
  · intro rid text resps j cv e h1 h2 h3
    simp [process_row, h1, h2, h3]
  · intro rid text resps rec h hne
    cases hpt : (process_text resps).2 with
    | none => simp [process_row, hpt] at h
    | some out =>
      cases out with
      | error e =>
        simp only [process_row, hpt, Option.some.injEq] at h
        rw [← h] at hne
        exact absurd rfl hne
      | ok j =>
        cases h1 : getItem j (toL "classification") with
        | error e =>
          simp only [process_row, hpt, h1, Option.some.injEq] at h
          rw [← h] at hne
          exact absurd rfl hne
        | ok cv =>
          cases h2 : getItem j (toL "transformed_text") with
          | error e =>
            simp only [process_row, hpt, h1, h2, Option.some.injEq] at h
            rw [← h] at hne
            exact absurd rfl hne
          | ok tv =>
            simp only [process_row, hpt, h1, h2, Option.some.injEq] at h
            exact ⟨j, cv, tv, rfl, h1, h2, by rw [← h], by rw [← h]⟩

/-- Witness for C5 (amended): a non-JSON payload makes classify fail; the
field-less `[1, 2]` reply and the `transformed_text`-less
`{"classification": "fact"}` reply each become an ERROR row in the runner;
and a reply with both fields yields a non-ERROR row copying them. -/
theorem C5_witness :
    extractReplyText (toL "\x7b\"content\": [\x7b\"text\": \"not json\"\x7d]\x7d") =
      .ok (toL "not json") ∧
    loads (clean_response (toL "not json")) = none ∧
    parseReply (toL "\x7b\"content\": [\x7b\"text\": \"not json\"\x7d]\x7d") =
      .error .jsonDecodeError ∧
    (process_text [⟨200, toL "\x7b\"content\": [\x7b\"text\": \"[1, 2]\"\x7d]\x7d"⟩]).2 =
      some (.ok (.jarr [.jnum 1, .jnum 2])) ∧
    process_row (toL "1") (toL "t")
        [⟨200, toL "\x7b\"content\": [\x7b\"text\": \"[1, 2]\"\x7d]\x7d"⟩] =
      some ⟨toL "1", toL "t", .jstr errCls, .jstr (errMsg PyErr.typeError)⟩ ∧
    process_row (toL "1") (toL "t")
        [⟨200, toL "\x7b\"content\": [\x7b\"text\": \"\x7b\\\"classification\\\": \\\"fact\\\"\x7d\"\x7d]\x7d"⟩] =
      some ⟨toL "1", toL "t", .jstr errCls,
        .jstr (errMsg (PyErr.keyError (toL "transformed_text")))⟩ ∧
    ∃ j cv tv,
      (process_text [⟨200, toL "\x7b\"content\": [\x7b\"text\": \"\x7b\\\"classification\\\": \\\"fact\\\", \\\"transformed_text\\\": \\\"x\\\"\x7d\"\x7d]\x7d"⟩]).2 =
        some (.ok j) ∧
      getItem j (toL "classification") = .ok cv ∧
      getItem j (toL "transformed_text") = .ok tv ∧
      (⟨toL "1", toL "t", .jstr (toL "fact"), .jstr (toL "x")⟩ : OutputRec).classification = cv ∧
      (⟨toL "1", toL "t", .jstr (toL "fact"), .jstr (toL "x")⟩ : OutputRec).transformed_text = tv :=
  ⟨rfl, rfl,
    C5_missing_field_amended.1 (toL "not json")
      (toL "\x7b\"content\": [\x7b\"text\": \"not json\"\x7d]\x7d") rfl rfl,
    rfl,
    C5_missing_field_amended.2.2.1 (toL "1") (toL "t")
      [⟨200, toL "\x7b\"content\": [\x7b\"text\": \"[1, 2]\"\x7d]\x7d"⟩]
      (.jarr [.jnum 1, .jnum 2]) .typeError rfl rfl,
    C5_missing_field_amended.2.2.2.1 (toL "1") (toL "t")
      [⟨200, toL "\x7b\"content\": [\x7b\"text\": \"\x7b\\\"classification\\\": \\\"fact\\\"\x7d\"\x7d]\x7d"⟩]
      (.jobj [(toL "classification", .jstr (toL "fact"))])
      (.jstr (toL "fact")) (.keyError (toL "transformed_text")) rfl rfl rfl,
    C5_missing_field_amended.2.2.2.2 (toL "1") (toL "t")
      [⟨200, toL "\x7b\"content\": [\x7b\"text\": \"\x7b\\\"classification\\\": \\\"fact\\\", \\\"transformed_text\\\": \\\"x\\\"\x7d\"\x7d]\x7d"⟩]
      ⟨toL "1", toL "t", .jstr (toL "fact"), .jstr (toL "x")⟩ rfl
      (by
        intro hq
        injection hq with hq'
        exact absurd hq' (by decide))⟩

/-- Claim C6. Rate-limit handling: an all-429 oracle of any length produces
no outcome — every 429 posts the request, prints the incremented retry
counter and sleeps 15 seconds, with no bound on the number of retries —
and any outcome that is produced comes from the first non-429 response,
after exactly the leading run of 429s was retried; a 429 is never itself
surfaced as the outcome. -/
theorem C6_rate_limit_retry (rs : List HttpResp) :
    ((∀ r ∈ rs, r.status = 429) → process_text rs = (retryTrace 0 rs.length, none)) ∧
    (∀ out : Except PyErr Json, (process_text rs).2 = some out →
      ∃ k, ∃ hk : k < rs.length,
        (∀ j, (hj : j < k) → (rs.get ⟨j, Nat.lt_trans hj hk⟩).status = 429) ∧
        (rs.get ⟨k, hk⟩).status ≠ 429 ∧
        out = respond (rs.get ⟨k, hk⟩) ∧
        (process_text rs).1 = retryTrace 0 k ++ [Event.requested]) :=
  ⟨fun h => pt_aux_all429 rs 0 h, fun out h => pt_aux_ret rs 0 out h⟩

/-- Witness for C6: two 429s retry twice without an outcome, and a 500
after a 429 is returned as the (first non-429) outcome. -/
theorem C6_witness :
    ((∀ r ∈ ([⟨429, []⟩, ⟨429, []⟩] : List HttpResp), r.status = 429) ∧
     process_text [⟨429, []⟩, ⟨429, []⟩] = (retryTrace 0 2, none)) ∧
    ((process_text [⟨429, []⟩, ⟨500, toL "b"⟩]).2 =
        some (.error (.httpError 500 (toL "b"))) ∧
     ∃ k, ∃ hk : k < ([⟨429, []⟩, ⟨500, toL "b"⟩] : List HttpResp).length,
       (∀ j, (hj : j < k) →
         (([⟨429, []⟩, ⟨500, toL "b"⟩] : List HttpResp).get
           ⟨j, Nat.lt_trans hj hk⟩).status = 429) ∧
       (([⟨429, []⟩, ⟨500, toL "b"⟩] : List HttpResp).get ⟨k, hk⟩).status ≠ 429 ∧
       Except.error (PyErr.httpError 500 (toL "b")) =
         respond (([⟨429, []⟩, ⟨500, toL "b"⟩] : List HttpResp).get ⟨k, hk⟩) ∧
       (process_text [⟨429, []⟩, ⟨500, toL "b"⟩]).1 =
         retryTrace 0 k ++ [Event.requested]) :=
  ⟨⟨by decide, (C6_rate_limit_retry [⟨429, []⟩, ⟨429, []⟩]).1 (by decide)⟩,
   ⟨rfl, (C6_rate_limit_retry [⟨429, []⟩, ⟨500, toL "b"⟩]).2
      (.error (.httpError 500 (toL "b"))) rfl⟩⟩

/-- Claim C7. A call that is rate-limited exactly twice and then answered
with reply `s` produces the same row record and the same outcome as a call
answered with `s` immediately; the two runs differ only in the diagnostic
trace (two extra retry notices and sleeps) — and hence in elapsed time. -/
theorem C7_retry_transparent (rid text : List Char) (r1 r2 s : HttpResp)
    (h1 : r1.status = 429) (h2 : r2.status = 429) (hs : s.status ≠ 429) :
    process_row rid text [r1, r2, s] = process_row rid text [s] ∧
    (process_text [r1, r2, s]).2 = (process_text [s]).2 ∧
    (process_text [r1, r2, s]).1 = retryTrace 0 2 ++ (process_text [s]).1 := by
  have hb1 : (r1.status == 429) = true := by simp [h1]
  have hb2 : (r2.status == 429) = true := by simp [h2]
  have hbs : (s.status == 429) = false := by simp [hs]
  have e1 : process_text [r1, r2, s] =
      ([.requested, .printedRetry 1, .slept 15, .requested, .printedRetry 2, .slept 15,
        .requested], some (respond s)) := by
    simp [process_text, process_text_aux, hb1, hb2, hbs]
  have e2 : process_text [s] = ([.requested], some (respond s)) := by
    simp [process_text, process_text_aux, hbs]
  refine ⟨?_, ?_, ?_⟩
  · simp only [process_row, e1, e2]
  · rw [e1, e2]
  · rw [e1, e2]
    rfl

/-- Witness for C7: two concrete 429s before a success reply. -/
theorem C7_witness :
    ((⟨429, []⟩ : HttpResp).status = 429) ∧
    ((⟨200, toL "\x7b\"content\": [\x7b\"text\": \"[1, 2]\"\x7d]\x7d"⟩ : HttpResp).status ≠ 429) ∧
    process_row (toL "1") (toL "t")
        [⟨429, []⟩, ⟨429, []⟩,
         ⟨200, toL "\x7b\"content\": [\x7b\"text\": \"[1, 2]\"\x7d]\x7d"⟩] =
      process_row (toL "1") (toL "t")
        [⟨200, toL "\x7b\"content\": [\x7b\"text\": \"[1, 2]\"\x7d]\x7d"⟩] :=
  ⟨rfl, by decide,
    (C7_retry_transparent (toL "1") (toL "t") ⟨429, []⟩ ⟨429, []⟩
      ⟨200, toL "\x7b\"content\": [\x7b\"text\": \"[1, 2]\"\x7d]\x7d"⟩
      rfl rfl (by decide)).1⟩

/-- Claim C8. A response with an unsuccessful HTTP status (the 400–599 range
`raise_for_status` raises for) other than 429 makes the call fail at once
with an `HTTPError` carrying the status and body: no retry, no result, no
further response consumed. -/
theorem C8_http_error (r : HttpResp) (rest : List HttpResp)
    (h4 : 400 ≤ r.status) (h6 : r.status < 600) (h429 : r.status ≠ 429) :
    process_text (r :: rest) =
      ([Event.requested], some (.error (.httpError r.status r.body))) := by
  have hb : (r.status == 429) = false := by simp [h429]
  simp [process_text, process_text_aux, hb, respond, h4, h6]

/-- Witness for C8 at a 503 response. -/
theorem C8_witness :
    400 ≤ (⟨503, toL "busy"⟩ : HttpResp).status ∧
    (⟨503, toL "busy"⟩ : HttpResp).status < 600 ∧
    (⟨503, toL "busy"⟩ : HttpResp).status ≠ 429 ∧
    process_text [⟨503, toL "busy"⟩, ⟨429, []⟩] =
      ([Event.requested], some (.error (.httpError 503 (toL "busy")))) :=
  ⟨by decide, by decide, by decide,
    C8_http_error ⟨503, toL "busy"⟩ [⟨429, []⟩] (by decide) (by decide) (by decide)⟩

/-- Claim C9. A failure to open or read the input propagates out of
`process_csv` and no output table is produced; and the output table, when
produced, is built only from a completed run over all rows — the header
row followed by one row per record, in order. -/
theorem C9_output_after_all_rows :
    (∀ (e : PyErr) (svc : Nat → List HttpResp), process_csv (.error e) svc = .error e) ∧
    (∀ (rows : List RowDict) (svc : Nat → List HttpResp)
        (tbl : List (List (List Char))),
      process_csv (.ok rows) svc = .ok (some tbl) →
      ∃ recs : List OutputRec, runRows rows svc = .ok (some recs) ∧
        recs.length = rows.length ∧ tbl = headerRow :: recs.map recRow) := by
  constructor
  · intro e svc
    rfl
  · intro rows svc tbl h
    cases hr : runRows rows svc with
    | error e => simp [process_csv, hr] at h
    | ok o =>
      cases o with
      | none => simp [process_csv, hr] at h
      | some recs =>
        simp only [process_csv, hr, Except.ok.injEq, Option.some.injEq] at h
        have hr' : runRowsAux svc 0 rows = .ok (some recs) := hr
        exact ⟨recs, rfl, (runRowsAux_ok hr').1, h.symm⟩

/-- Witness for C9: a failed input aborts with the same error, and a
completed one-row run writes header plus one record row. -/
theorem C9_witness :
    process_csv (.error (.keyError (toL "x"))) (fun _ => []) =
      .error (.keyError (toL "x")) ∧
    process_csv (.ok [[(toL "id", toL "1"), (toL "text", toL "t")]])
        (fun _ => [⟨500, toL "b"⟩]) =
      .ok (some (headerRow ::
        [⟨toL "1", toL "t", .jstr errCls,
          .jstr (errMsg (.httpError 500 (toL "b")))⟩].map recRow)) ∧
    ∃ recs : List OutputRec,
      runRows [[(toL "id", toL "1"), (toL "text", toL "t")]]
        (fun _ => [⟨500, toL "b"⟩]) = .ok (some recs) ∧
      recs.length = [[(toL "id", toL "1"), (toL "text", toL "t")]].length ∧
      headerRow ::
        [⟨toL "1", toL "t", .jstr errCls,
          .jstr (errMsg (.httpError 500 (toL "b")))⟩].map recRow =
        headerRow :: recs.map recRow :=
  ⟨C9_output_after_all_rows.1 (.keyError (toL "x")) (fun _ => []),
   rfl,
   C9_output_after_all_rows.2 [[(toL "id", toL "1"), (toL "text", toL "t")]]
     (fun _ => [⟨500, toL "b"⟩])
     (headerRow ::
       ([⟨toL "1", toL "t", .jstr errCls,
         .jstr (errMsg (.httpError 500 (toL "b")))⟩] : List OutputRec).map recRow)
     rfl⟩

/-- Claim C10. A row lacking the `text` column (or having `text` but lacking
`id`) fails outside the per-row handler: provided the preceding rows
process normally, the whole batch aborts with an unhandled error and no
output table is written — the defective row is not recorded as an ERROR
record. -/
theorem C10_missing_column_aborts (rows1 : List RowDict) (row : RowDict)
    (rows2 : List RowDict) (svc : Nat → List HttpResp)
    (hbad : List.lookup (toL "text") row = none ∨
      ((List.lookup (toL "text") row).isSome = true ∧
        List.lookup (toL "id") row = none))
    (hgood : ∀ i (hi : i < rows1.length),
      (List.lookup (toL "text") (rows1.get ⟨i, hi⟩)).isSome = true ∧
      (List.lookup (toL "id") (rows1.get ⟨i, hi⟩)).isSome = true ∧
      (process_text (svc i)).2 ≠ none) :
    ∃ e, runRows (rows1 ++ row :: rows2) svc = .error e ∧
      process_csv (.ok (rows1 ++ row :: rows2)) svc = .error e := by
  have hg' : ∀ i (hi : i < rows1.length),
      (List.lookup (toL "text") (rows1.get ⟨i, hi⟩)).isSome = true ∧
      (List.lookup (toL "id") (rows1.get ⟨i, hi⟩)).isSome = true ∧
      (process_text (svc (0 + i))).2 ≠ none := by
    intro i hi
    obtain ⟨a, b, c⟩ := hgood i hi
    exact ⟨a, b, by rw [Nat.zero_add]; exact c⟩
  obtain ⟨e, he⟩ := runRowsAux_abort rows1 row rows2 hbad hg'
  refine ⟨e, he, ?_⟩
  simp [process_csv, show runRows (rows1 ++ row :: rows2) svc = .error e from he]

/-- Witness for C10: a single row with an `id` column but no `text` column
aborts the batch before any output is produced. -/
theorem C10_witness :
    ∃ e, runRows ([] ++ [(toL "id", toL "1")] :: []) (fun _ => []) = .error e ∧
      process_csv (.ok ([] ++ [(toL "id", toL "1")] :: [])) (fun _ => []) = .error e :=
  C10_missing_column_aborts [] [(toL "id", toL "1")] [] (fun _ => [])
    (Or.inl (by decide))
    (fun i hi => absurd hi (by simp))

end Llm


